import Mathlib

/-!
Verification of `tools/list_rocm_nightly.py`.

The script fetches an S3 bucket listing, extracts artifact keys matching
`therock-dist-{platform}-{target}-(version).tar.gz`, parses version strings
into sortable 5-tuples, sorts the candidates descending, and prints the top
N URLs.  The definitions below are a shallow embedding of the script:

* `parse_version` embeds the Python function `parse_version`, including the
  regex `(\d+)\.(\d+)\.(\d+)(a|rc)?(\d+)?$` applied with `re.match`
  (anchored at the start; the trailing `$` also matches just before a final
  newline, which `stripNl` accounts for).  The regex's greedy `\d+` groups
  are modelled by the maximal-munch `spanDigits`; as the character after a
  maximal digit run is never a digit, greedy matching is deterministic here.
* `vkLtb` embeds Python's lexicographic `<` on the resulting 5-tuples,
  `candLtb` the `<` on `(tuple, key-string)` pairs used by `list.sort`.
* `sortRev` embeds `candidates.sort(reverse=True)`: CPython reverses the
  list, stable-sorts ascending, and reverses again; the stable ascending
  sort is modelled by `List.insertionSort` with `a ≤ b` iff `¬ (b < a)`.
* `findKeys`, `searchVersion`, `extractCandidates` embed the
  `re.findall(r"<Key>([^<]+)</Key>", data)` scan and the per-key
  `pattern.search` with pattern
  `{escape(prefix[:-2])}-(\d+\.\d+\.\d+(?:a\d+|rc\d+)?)\.tar\.gz$`.
* `resolveTarget`, `mkPrefix` embed the target aliasing and prefix f-string.
* `pySlice`, `takeNewest`, `urlLines` embed
  `candidates[: args.count] if candidates else []` and the URL printing.
* `validPlatform`, `acceptsArgs` embed the argparse declarations
  (`--platform` has `choices=["linux", "windows"]`; `--target` is free).
-/

/-- Release-channel marker captured by group 4 of the version regex:
`a` for alpha, `rc` for release candidate. -/
inductive PreType
  | a
  | rc
deriving DecidableEq

/-- Maximal run of ASCII digits at the front of the character list, together
with the remainder (the behaviour of a greedy `\d+`/`\d*`). -/
def spanDigits : List Char → List Char × List Char
  | [] => ([], [])
  | c :: cs =>
    if c.isDigit then
      let p := spanDigits cs
      (c :: p.1, p.2)
    else ([], c :: cs)

/-- Numeric value of a digit string, accumulator style: the value Python's
`int` assigns to the captured group. -/
def digitsToNat (acc : Nat) : List Char → Nat
  | [] => acc
  | c :: cs => digitsToNat (10 * acc + (c.toNat - 48)) cs

/-- Greedy `(\d+)` with capture: fails on an empty digit run, otherwise
returns the numeric value of the maximal run and the remainder. -/
def parseNum (cs : List Char) : Option (Nat × List Char) :=
  match spanDigits cs with
  | ([], _) => none
  | (ds, rest) => some (digitsToNat 0 ds, rest)

/-- Literal `\.` of the regex. -/
def expectDot : List Char → Option (List Char)
  | '.' :: rest => some rest
  | _ => none

/-- Tail `(\d+)?$` of the version regex: accepts the empty remainder with no
number, or a digit run that reaches the end of the input. -/
def parseOptNumEnd : List Char → Option (Option Nat)
  | [] => some none
  | cs =>
    match parseNum cs with
    | some (n, []) => some (some n)
    | _ => none

/-- Suffix `(a|rc)?(\d+)?$` of the version regex.  After the greedy patch
group the next character is never a digit, so the `(\d+)?` group can only be
non-empty when a channel marker was consumed. -/
def parseSuffix : List Char → Option (Option PreType × Option Nat)
  | [] => some (none, none)
  | 'a' :: rest => (parseOptNumEnd rest).map (fun n => (some PreType.a, n))
  | 'r' :: 'c' :: rest => (parseOptNumEnd rest).map (fun n => (some PreType.rc, n))
  | _ => none

/-- Python's `$` also matches immediately before a newline that ends the
string; stripping one trailing newline makes the end-of-input checks above
mirror that. -/
def stripNl (cs : List Char) : List Char :=
  match cs.getLast? with
  | some '\n' => cs.dropLast
  | _ => cs

/-- The whole of `re.match(r"(\d+)\.(\d+)\.(\d+)(a|rc)?(\d+)?$", v)`:
returns the five captured groups on success. -/
def matchVersion (v : String) : Option (Nat × Nat × Nat × Option PreType × Option Nat) :=
  match parseNum (stripNl v.data) with
  | none => none
  | some (major, r1) =>
    match expectDot r1 with
    | none => none
    | some r2 =>
      match parseNum r2 with
      | none => none
      | some (minor, r3) =>
        match expectDot r3 with
        | none => none
        | some r4 =>
          match parseNum r4 with
          | none => none
          | some (patch, r5) =>
            match parseSuffix r5 with
            | none => none
            | some (pt, pn) => some (major, minor, patch, pt, pn)

/-- Embedding of the Python function `parse_version`: regex match, sentinel
`(0, 0, 0, 1, 0)` on failure, otherwise
`(major, minor, patch, pre_order, int(pre_num or 0))` with
`pre_order = 2 if not pre_type else (0 if pre_type == "a" else 1)`. -/
def parse_version (v : String) : Nat × Nat × Nat × Nat × Nat :=
  match matchVersion v with
  | none => (0, 0, 0, 1, 0)
  | some (major, minor, patch, pre_type, pre_num) =>
    let pre_order : Nat :=
      match pre_type with
      | none => 2
      | some PreType.a => 0
      | some PreType.rc => 1
    (major, minor, patch, pre_order, pre_num.getD 0)

/-- The sortable tuple produced by `parse_version`. -/
abbrev VersionKey := Nat × Nat × Nat × Nat × Nat

/-- Python's `<` on two 5-tuples of integers: lexicographic comparison,
as a proposition. -/
def vkLt (x y : VersionKey) : Prop :=
  x.1 < y.1 ∨ (x.1 = y.1 ∧
    (x.2.1 < y.2.1 ∨ (x.2.1 = y.2.1 ∧
      (x.2.2.1 < y.2.2.1 ∨ (x.2.2.1 = y.2.2.1 ∧
        (x.2.2.2.1 < y.2.2.2.1 ∨ (x.2.2.2.1 = y.2.2.2.1 ∧
          x.2.2.2.2 < y.2.2.2.2)))))))

instance (x y : VersionKey) : Decidable (vkLt x y) := by
  unfold vkLt
  infer_instance

/-- Python's `<` on two 5-tuples of integers, as a boolean. -/
def vkLtb (x y : VersionKey) : Bool :=
  decide (vkLt x y)

/-- A sort candidate: the parsed `VersionKey` paired with the raw key string,
exactly the pairs the script appends to `candidates`. -/
abbrev Candidate := VersionKey × String

/-- Python's `<` on strings: lexicographic comparison of code points. -/
def strLtb : List Char → List Char → Bool
  | [], [] => false
  | [], _ :: _ => true
  | _ :: _, [] => false
  | a :: as, b :: bs =>
    if a < b then true
    else if b < a then false
    else strLtb as bs

/-- Python's `<` on the `(VersionKey, key)` pairs held in `candidates`:
compare the tuples first, and on equal tuples compare the key strings. -/
def candLt (x y : Candidate) : Prop :=
  vkLt x.1 y.1 ∨ (x.1 = y.1 ∧ strLtb x.2.data y.2.data = true)

instance (x y : Candidate) : Decidable (candLt x y) := by
  unfold candLt
  infer_instance

/-- Python's `<` on `(VersionKey, key)` pairs, as a boolean. -/
def candLtb (x y : Candidate) : Bool :=
  decide (candLt x y)

/-- The non-strict order used to model Python's stable ascending sort:
`x` may stay before `y` exactly when `y < x` fails. -/
def candRel (x y : Candidate) : Prop := candLtb y x = false

instance : DecidableRel candRel :=
  fun x y => inferInstanceAs (Decidable (candLtb y x = false))

/-- Embedding of `candidates.sort(reverse=True)`: CPython implements
`reverse=True` by reversing the list, running the stable ascending sort, and
reversing again.  The stable ascending sort is insertion sort with respect to
`candRel`. -/
def sortRev (l : List Candidate) : List Candidate :=
  (List.insertionSort candRel l.reverse).reverse

/-- Embedding of the target aliasing in `main`: `gfx110X` gains `-dgpu`,
`gfx120X` gains `-all`, anything else is passed through. -/
def resolveTarget (target : String) : String :=
  if target = "gfx110X" then target ++ "-dgpu"
  else if target = "gfx120X" then target ++ "-all"
  else target

/-- Embedding of `prefix = f"therock-dist-{args.platform}-{s3_target}-7"`. -/
def mkPrefix (platform target : String) : String :=
  "therock-dist-" ++ platform ++ "-" ++ resolveTarget target ++ "-7"

/-- The bucket base URL `S3_BASE` of the script. -/
def S3_BASE : String := "https://therock-nightly-tarball.s3.amazonaws.com/"

/-- Fuelled worker for `re.findall(r"<Key>([^<]+)</Key>", data)`: at each
position, try to match `<Key>`, a non-empty `<`-free run, and `</Key>`; on
success emit the run and continue after the match, otherwise advance one
character.  Every step consumes at least one character, so fuel equal to the
input length suffices. -/
def findKeysAux : Nat → List Char → List String
  | 0, _ => []
  | fuel + 1, cs =>
    match cs with
    | '<' :: 'K' :: 'e' :: 'y' :: '>' :: rest =>
      let content := rest.takeWhile (fun c => c ≠ '<')
      let rest2 := rest.dropWhile (fun c => c ≠ '<')
      match rest2 with
      | '<' :: '/' :: 'K' :: 'e' :: 'y' :: '>' :: rest3 =>
        if content = [] then findKeysAux fuel cs.tail
        else String.mk content :: findKeysAux fuel rest3
      | _ => findKeysAux fuel cs.tail
    | [] => []
    | _ :: t => findKeysAux fuel t

/-- Embedding of `re.findall(r"<Key>([^<]+)</Key>", data)`. -/
def findKeys (cs : List Char) : List String :=
  findKeysAux cs.length cs

/-- Match a literal character sequence (the `re.escape`d part of the
pattern) and return the remainder. -/
def dropLit : List Char → List Char → Option (List Char)
  | [], cs => some cs
  | l :: ls, c :: cs => if c = l then dropLit ls cs else none
  | _ :: _, [] => none

/-- The optional group `(?:a\d+|rc\d+)?` of the key pattern: consumed
characters and remainder.  The alternatives need at least one digit, else
the group matches the empty string. -/
def matchPre : List Char → List Char × List Char
  | 'a' :: rest =>
    (match spanDigits rest with
     | ([], _) => ([], 'a' :: rest)
     | (ds, r) => ('a' :: ds, r))
  | 'r' :: 'c' :: rest =>
    (match spanDigits rest with
     | ([], _) => ([], 'r' :: 'c' :: rest)
     | (ds, r) => ('r' :: 'c' :: ds, r))
  | cs => ([], cs)

/-- The capture group `(\d+\.\d+\.\d+(?:a\d+|rc\d+)?)` of the key pattern:
captured characters and remainder.  The greedy `\d+` groups are maximal
runs; shortening one leaves a digit in front, on which every continuation of
the pattern fails, so maximal munch is complete here. -/
def matchVersionCapture (cs : List Char) : Option (List Char × List Char) := do
  let (d1, r1) ←
    match spanDigits cs with
    | ([], _) => none
    | (ds, rest) => some (ds, rest)
  let r2 ← expectDot r1
  let (d2, r3) ←
    match spanDigits r2 with
    | ([], _) => none
    | (ds, rest) => some (ds, rest)
  let r4 ← expectDot r3
  let (d3, r5) ←
    match spanDigits r4 with
    | ([], _) => none
    | (ds, rest) => some (ds, rest)
  let (suf, r6) := matchPre r5
  return (d1 ++ '.' :: d2 ++ '.' :: d3 ++ suf, r6)

/-- Attempt the whole key pattern at the current position: the escaped
literal, the version capture, the literal `.tar.gz`, and the end anchor. -/
def matchPatternAt (lit cs : List Char) : Option String := do
  let r1 ← dropLit lit cs
  let (ver, r2) ← matchVersionCapture r1
  let r3 ← dropLit ".tar.gz".data r2
  if r3 = [] then some (String.mk ver) else none

/-- Embedding of `pattern.search(key)`: try the pattern at each position
from the left, returning the capture of the leftmost match. -/
def searchVersion (lit : List Char) (cs : List Char) : Option String :=
  match matchPatternAt lit cs with
  | some v => some v
  | none =>
    match cs with
    | [] => none
    | _ :: t => searchVersion lit t

/-- Embedding of the candidate-building loop of `main`: every `<Key>`
element of the listing is searched with the key pattern (whose literal part
is `prefix[:-2]` followed by `-`), and each match contributes
`(parse_version(version), key)`.  The trailing `$` of the pattern again
tolerates one final newline in the key. -/
def extractCandidates (platform target : String) (data : String) : List Candidate :=
  let pfx := mkPrefix platform target
  let lit := (pfx.dropRight 2).data ++ ['-']
  (findKeys data.data).filterMap (fun key =>
    (searchVersion lit (stripNl key.data)).map (fun v => (parse_version v, key)))

/-- Python list slicing `l[:n]` with an integer `n`: a negative stop counts
from the end of the list (clamped at zero). -/
def pySlice {α : Type _} (l : List α) (n : Int) : List α :=
  l.take (if n < 0 then (l.length + n).toNat else n.toNat)

/-- Embedding of `newest = candidates[: args.count] if candidates else []`
applied to the sorted list. -/
def takeNewest (cands : List Candidate) (count : Int) : List Candidate :=
  if cands = [] then [] else pySlice cands count

/-- The URL lines printed by the reporter: one `S3_BASE + key` line per
entry retained from the sorted candidate list. -/
def urlLines (cands : List Candidate) (count : Int) : List String :=
  (takeNewest (sortRev cands) count).map (fun c => S3_BASE ++ c.2)

/-- Embedding of the argparse `choices=["linux", "windows"]` restriction on
`--platform`. -/
def validPlatform (platform : String) : Bool :=
  platform = "linux" || platform = "windows"

/-- Whether argparse accepts a given platform/target pair: `--target` has no
`choices`, so only the platform is validated. -/
def acceptsArgs (platform target : String) : Bool :=
  validPlatform platform

/-- Release channel of a version, as the specification describes it:
alpha build N, release-candidate build N, or stable. -/
inductive Channel
  | alpha (n : Nat)
  | rc (n : Nat)
  | stable

/-- The intuitive channel ordering of the specification, stated by cases:
alpha < rc < stable, and within one channel the build numbers compare
numerically. -/
def chLt : Channel → Channel → Prop
  | Channel.alpha m, Channel.alpha n => m < n
  | Channel.alpha _, Channel.rc _ => True
  | Channel.alpha _, Channel.stable => True
  | Channel.rc _, Channel.alpha _ => False
  | Channel.rc m, Channel.rc n => m < n
  | Channel.rc _, Channel.stable => True
  | Channel.stable, Channel.alpha _ => False
  | Channel.stable, Channel.rc _ => False
  | Channel.stable, Channel.stable => False

/-- A semantic version as the specification reads it: numeric
major/minor/patch plus a release channel. -/
structure SemVer where
  major : Nat
  minor : Nat
  patch : Nat
  channel : Channel

/-- Intuitive semantic-version-plus-channel ordering, following the
specification's words: major, then minor, then patch compared numerically,
and only on full ties the channel ordering `chLt`. -/
def semLt (x y : SemVer) : Prop :=
  x.major < y.major ∨ (x.major = y.major ∧
    (x.minor < y.minor ∨ (x.minor = y.minor ∧
      (x.patch < y.patch ∨ (x.patch = y.patch ∧ chLt x.channel y.channel)))))

/-- Channel rank as encoded in the fourth tuple field: alpha 0, rc 1,
stable 2. -/
def chanRank : Channel → Nat
  | Channel.alpha _ => 0
  | Channel.rc _ => 1
  | Channel.stable => 2

/-- Build number as encoded in the fifth tuple field: 0 for stable. -/
def chanNum : Channel → Nat
  | Channel.alpha n => n
  | Channel.rc n => n
  | Channel.stable => 0

/-- Shape of the optional suffix of a version string: absent, a bare channel
marker (`a` / `rc` with no number), or a marker followed by digits. -/
inductive VSuffix
  | stable
  | bare (pt : PreType)
  | num (pt : PreType) (ds : List Char)

/-- Characters of a channel marker. -/
def ptChars : PreType → List Char
  | PreType.a => ['a']
  | PreType.rc => ['r', 'c']

/-- Characters of a suffix. -/
def VSuffix.chars : VSuffix → List Char
  | VSuffix.stable => []
  | VSuffix.bare pt => ptChars pt
  | VSuffix.num pt ds => ptChars pt ++ ds

/-- The `pre_type` group the regex captures on this suffix. -/
def VSuffix.ptOf : VSuffix → Option PreType
  | VSuffix.stable => none
  | VSuffix.bare pt => some pt
  | VSuffix.num pt _ => some pt

/-- The `pre_num` group the regex captures on this suffix. -/
def VSuffix.pnOf : VSuffix → Option Nat
  | VSuffix.num _ ds => some (digitsToNat 0 ds)
  | _ => none

/-- The `pre_order` value `parse_version` computes for this suffix. -/
def VSuffix.rank : VSuffix → Nat
  | VSuffix.stable => 2
  | VSuffix.bare PreType.a => 0
  | VSuffix.bare PreType.rc => 1
  | VSuffix.num PreType.a _ => 0
  | VSuffix.num PreType.rc _ => 1

/-- The fifth tuple field `int(pre_num or 0)` for this suffix. -/
def VSuffix.numVal : VSuffix → Nat
  | VSuffix.num _ ds => digitsToNat 0 ds
  | _ => 0

/-- The channel a suffix denotes; a bare marker denotes build 0 of its
channel. -/
def VSuffix.chanOf : VSuffix → Channel
  | VSuffix.stable => Channel.stable
  | VSuffix.bare PreType.a => Channel.alpha 0
  | VSuffix.bare PreType.rc => Channel.rc 0
  | VSuffix.num PreType.a ds => Channel.alpha (digitsToNat 0 ds)
  | VSuffix.num PreType.rc ds => Channel.rc (digitsToNat 0 ds)

/-- Wellformedness of a suffix: a numbered marker carries a non-empty digit
string. -/
def VSuffix.wf : VSuffix → Prop
  | VSuffix.num _ ds => ds ≠ [] ∧ ∀ c ∈ ds, c.isDigit = true
  | _ => True

/-- A wellformed numeric field: a non-empty string of ASCII digits. -/
def goodNum (w : List Char) : Prop :=
  w ≠ [] ∧ ∀ c ∈ w, c.isDigit = true

/-- The character sequence `MAJOR.MINOR.PATCH[SUFFIX]`. -/
def verChars (w1 w2 w3 : List Char) (s : VSuffix) : List Char :=
  w1 ++ '.' :: (w2 ++ '.' :: (w3 ++ s.chars))

/-- The version string `MAJOR.MINOR.PATCH[SUFFIX]`. -/
def verStr (w1 w2 w3 : List Char) (s : VSuffix) : String :=
  String.mk (verChars w1 w2 w3 s)

/-- The semantic version a valid version string denotes. -/
def semOf (w1 w2 w3 : List Char) (s : VSuffix) : SemVer :=
  ⟨digitsToNat 0 w1, digitsToNat 0 w2, digitsToNat 0 w3, s.chanOf⟩

/-- Holds when the list does not start with a digit, so a preceding greedy
`\d+` run is maximal. -/
def headNotDigit : List Char → Prop
  | [] => True
  | c :: _ => c.isDigit = false

theorem spanDigits_append (ds rest : List Char) (hd : ∀ c ∈ ds, c.isDigit = true)
    (hr : headNotDigit rest) : spanDigits (ds ++ rest) = (ds, rest) := by
  induction ds with
  | nil =>
    cases rest with
    | nil => rfl
    | cons c t => simpa [spanDigits] using hr
  | cons c t ih =>
    have hc : c.isDigit = true := hd c (by simp)
    have ht : ∀ x ∈ t, x.isDigit = true := fun x hx => hd x (by simp [hx])
    simp [spanDigits, hc, ih ht]

theorem parseNum_append (ds rest : List Char) (hne : ds ≠ [])
    (hd : ∀ c ∈ ds, c.isDigit = true) (hr : headNotDigit rest) :
    parseNum (ds ++ rest) = some (digitsToNat 0 ds, rest) := by
  unfold parseNum
  rw [spanDigits_append ds rest hd hr]
  cases ds with
  | nil => exact absurd rfl hne
  | cons c t => rfl

theorem parseOptNumEnd_good (ds : List Char) (hne : ds ≠ [])
    (hd : ∀ c ∈ ds, c.isDigit = true) :
    parseOptNumEnd ds = some (some (digitsToNat 0 ds)) := by
  cases ds with
  | nil => exact absurd rfl hne
  | cons c t =>
    have h := parseNum_append (c :: t) [] (by simp) hd trivial
    rw [List.append_nil] at h
    simp [parseOptNumEnd, h]

theorem parseSuffix_chars (s : VSuffix) (hs : s.wf) :
    parseSuffix s.chars = some (s.ptOf, s.pnOf) := by
  cases s with
  | stable => rfl
  | bare pt => cases pt <;> rfl
  | num pt ds =>
    obtain ⟨hne, hd⟩ := hs
    cases pt with
    | a =>
      simp [VSuffix.chars, ptChars, parseSuffix, parseOptNumEnd_good ds hne hd,
        VSuffix.ptOf, VSuffix.pnOf]
    | rc =>
      simp [VSuffix.chars, ptChars, parseSuffix, parseOptNumEnd_good ds hne hd,
        VSuffix.ptOf, VSuffix.pnOf]

theorem stripNl_eq_self (cs : List Char) (h : ∀ c ∈ cs, c ≠ '\n') :
    stripNl cs = cs := by
  unfold stripNl
  cases hl : cs.getLast? with
  | none => rfl
  | some c =>
    have hc : c ≠ '\n' := h c (List.mem_of_getLast?_eq_some hl)
    simp [hc]

theorem headNotDigit_cons (c : Char) (cs : List Char) (h : c.isDigit = false) :
    headNotDigit (c :: cs) := h

theorem expectDot_cons (rest : List Char) : expectDot ('.' :: rest) = some rest := rfl

theorem digit_ne_nl (c : Char) (h : c.isDigit = true) : c ≠ '\n' := by
  intro hc
  subst hc
  exact absurd h (by decide)

theorem suffix_ne_nl (s : VSuffix) (hs : s.wf) : ∀ c ∈ s.chars, c ≠ '\n' := by
  cases s with
  | stable => intro c hc; simp [VSuffix.chars] at hc
  | bare pt =>
    intro c hc
    cases pt with
    | a => simp [VSuffix.chars, ptChars] at hc; subst hc; decide
    | rc =>
      simp [VSuffix.chars, ptChars] at hc
      rcases hc with h | h <;> subst h <;> decide
  | num pt ds =>
    intro c hc
    cases pt with
    | a =>
      simp [VSuffix.chars, ptChars] at hc
      rcases hc with h | h
      · subst h; decide
      · exact digit_ne_nl c (hs.2 c h)
    | rc =>
      simp [VSuffix.chars, ptChars] at hc
      rcases hc with h | h | h
      · subst h; decide
      · subst h; decide
      · exact digit_ne_nl c (hs.2 c h)

theorem suffix_headNotDigit (s : VSuffix) : headNotDigit s.chars := by
  cases s with
  | stable => trivial
  | bare pt => cases pt <;> simp [VSuffix.chars, ptChars, headNotDigit]
  | num pt ds => cases pt <;> simp [VSuffix.chars, ptChars, headNotDigit]

theorem matchVersion_verStr (w1 w2 w3 : List Char) (s : VSuffix)
    (h1 : goodNum w1) (h2 : goodNum w2) (h3 : goodNum w3) (hs : s.wf) :
    matchVersion (verStr w1 w2 w3 s) =
      some (digitsToNat 0 w1, digitsToNat 0 w2, digitsToNat 0 w3, s.ptOf, s.pnOf) := by
  have hnl : ∀ c ∈ verChars w1 w2 w3 s, c ≠ '\n' := by
    intro c hc
    simp [verChars] at hc
    rcases hc with h | h | h | h | h | h
    · exact digit_ne_nl c (h1.2 c h)
    · subst h; decide
    · exact digit_ne_nl c (h2.2 c h)
    · subst h; decide
    · exact digit_ne_nl c (h3.2 c h)
    · exact suffix_ne_nl s hs c h
  have hd : stripNl (verStr w1 w2 w3 s).data = w1 ++ '.' :: (w2 ++ '.' :: (w3 ++ s.chars)) :=
    stripNl_eq_self (verChars w1 w2 w3 s) hnl
  unfold matchVersion
  rw [hd]
  rw [parseNum_append w1 _ h1.1 h1.2 (headNotDigit_cons _ _ (by decide))]
  dsimp only
  rw [expectDot_cons]
  dsimp only
  rw [parseNum_append w2 _ h2.1 h2.2 (headNotDigit_cons _ _ (by decide))]
  dsimp only
  rw [expectDot_cons]
  dsimp only
  rw [parseNum_append w3 _ h3.1 h3.2 (suffix_headNotDigit s)]
  dsimp only
  rw [parseSuffix_chars s hs]

theorem parse_verStr (w1 w2 w3 : List Char) (s : VSuffix)
    (h1 : goodNum w1) (h2 : goodNum w2) (h3 : goodNum w3) (hs : s.wf) :
    parse_version (verStr w1 w2 w3 s) =
      (digitsToNat 0 w1, digitsToNat 0 w2, digitsToNat 0 w3, s.rank, s.numVal) := by
  unfold parse_version
  rw [matchVersion_verStr w1 w2 w3 s h1 h2 h3 hs]
  cases s with
  | stable => rfl
  | bare pt => cases pt <;> rfl
  | num pt ds => cases pt <;> rfl

theorem suffix_rank_chan (s : VSuffix) : s.rank = chanRank s.chanOf := by
  cases s with
  | stable => rfl
  | bare pt => cases pt <;> rfl
  | num pt ds => cases pt <;> rfl

theorem suffix_numVal_chan (s : VSuffix) : s.numVal = chanNum s.chanOf := by
  cases s with
  | stable => rfl
  | bare pt => cases pt <;> rfl
  | num pt ds => cases pt <;> rfl

theorem vkLt_irrefl (x : VersionKey) : ¬ vkLt x x := by
  unfold vkLt
  omega

theorem vkLt_asymm (x y : VersionKey) (h : vkLt x y) : ¬ vkLt y x := by
  unfold vkLt at h ⊢
  omega

theorem vkLt_negtrans (x y z : VersionKey) (h : vkLt x z) : vkLt x y ∨ vkLt y z := by
  unfold vkLt at h ⊢
  omega

theorem vkLt_trichotomy (x y : VersionKey) : vkLt x y ∨ x = y ∨ vkLt y x := by
  obtain ⟨x1, x2, x3, x4, x5⟩ := x
  obtain ⟨y1, y2, y3, y4, y5⟩ := y
  unfold vkLt
  simp only [Prod.mk.injEq]
  omega

theorem strLtb_asymm : ∀ as bs : List Char, strLtb as bs = true → strLtb bs as = false
  | [], [] => by simp [strLtb]
  | [], _ :: _ => by simp [strLtb]
  | _ :: _, [] => by simp [strLtb]
  | a :: as, b :: bs => by
    intro h
    by_cases h1 : a < b
    · have h2 : ¬ b < a := lt_asymm h1
      simp [strLtb, h1, h2]
    · by_cases h2 : b < a
      · simp [strLtb, h1, h2] at h
      · simp [strLtb, h1, h2] at h ⊢
        exact strLtb_asymm as bs h

theorem strLtb_negtrans : ∀ u v w : List Char,
    strLtb u w = true → strLtb u v = true ∨ strLtb v w = true
  | [], v, w => by
    intro h
    cases w with
    | nil => simp [strLtb] at h
    | cons c ws =>
      cases v with
      | nil => right; simp [strLtb]
      | cons b vs => left; simp [strLtb]
  | _ :: _, _, [] => by intro h; simp [strLtb] at h
  | a :: as, [], c :: ws => by
    intro h
    right
    simp [strLtb]
  | a :: as, b :: vs, c :: ws => by
    intro h
    by_cases hac : a < c
    · rcases lt_trichotomy a b with hab | hab | hab
      · left; simp [strLtb, hab]
      · subst hab
        right
        simp [strLtb, hac]
      · right
        have hbc : b < c := lt_trans hab hac
        simp [strLtb, hbc]
    · by_cases hca : c < a
      · simp [strLtb, hac, hca] at h
      · have hrec : strLtb as ws = true := by simpa [strLtb, hac, hca] using h
        have hac' : a = c := le_antisymm (not_lt.mp hca) (not_lt.mp hac)
        subst hac'
        rcases lt_trichotomy a b with hab | hab | hab
        · left; simp [strLtb, hab]
        · subst hab
          rcases strLtb_negtrans as vs ws hrec with hl | hr
          · left; simp [strLtb, hl]
          · right; simp [strLtb, hr]
        · right; simp [strLtb, hab]

theorem candLt_asymm (x y : Candidate) (h : candLt x y) : ¬ candLt y x := by
  rcases h with hv | ⟨he, hs⟩
  · rintro (hv2 | ⟨he2, _⟩)
    · exact vkLt_asymm _ _ hv hv2
    · exact vkLt_irrefl x.1 (he2 ▸ hv)
  · rintro (hv2 | ⟨he2, hs2⟩)
    · exact vkLt_irrefl y.1 (he ▸ hv2)
    · have hf := strLtb_asymm _ _ hs
      rw [hf] at hs2
      exact Bool.false_ne_true hs2

theorem candLt_negtrans (x y z : Candidate) (h : candLt x z) : candLt x y ∨ candLt y z := by
  rcases h with hv | ⟨he, hs⟩
  · rcases vkLt_negtrans x.1 y.1 z.1 hv with hl | hr
    · exact Or.inl (Or.inl hl)
    · exact Or.inr (Or.inl hr)
  · rcases vkLt_trichotomy x.1 y.1 with hlt | hmid | hgt
    · exact Or.inl (Or.inl hlt)
    · rcases strLtb_negtrans x.2.data y.2.data z.2.data hs with hl | hr
      · exact Or.inl (Or.inr ⟨hmid, hl⟩)
      · exact Or.inr (Or.inr ⟨hmid ▸ he, hr⟩)
    · exact Or.inr (Or.inl (he ▸ hgt))

theorem candLtb_false_iff (x y : Candidate) : candLtb x y = false ↔ ¬ candLt x y := by
  simp [candLtb]

instance : IsTotal Candidate candRel := by
  constructor
  intro x y
  by_cases hb : candLt y x
  · right
    unfold candRel
    rw [candLtb_false_iff]
    exact candLt_asymm _ _ hb
  · left
    unfold candRel
    rw [candLtb_false_iff]
    exact hb

instance : IsTrans Candidate candRel := by
  constructor
  intro x y z h1 h2
  unfold candRel at h1 h2 ⊢
  rw [candLtb_false_iff] at h1 h2 ⊢
  intro hzx
  rcases candLt_negtrans z y x hzx with hl | hr
  · exact h2 hl
  · exact h1 hr

/-- The output of `sortRev` is a permutation of its input. -/
theorem sortRev_perm (l : List Candidate) : (sortRev l).Perm l := by
  unfold sortRev
  exact ((List.insertionSort candRel l.reverse).reverse_perm.trans
    (List.perm_insertionSort candRel l.reverse)).trans l.reverse_perm

/-- The output of `sortRev` is pairwise descending with respect to the
candidate order: no later element is greater. -/
theorem sortRev_pairwise (l : List Candidate) :
    (sortRev l).Pairwise (fun a b => candLtb a b = false) := by
  have hs : (List.insertionSort candRel l.reverse).Pairwise candRel :=
    List.sorted_insertionSort candRel l.reverse
  unfold sortRev
  rw [List.pairwise_reverse]
  exact hs

theorem vkLtb_chan (a1 b1 c1 a2 b2 c2 : Nat) (c d : Channel) :
    vkLtb (a1, b1, c1, chanRank c, chanNum c) (a2, b2, c2, chanRank d, chanNum d) = true ↔
      semLt ⟨a1, b1, c1, c⟩ ⟨a2, b2, c2, d⟩ := by
  cases c <;> cases d <;>
    (simp only [vkLtb, decide_eq_true_eq] ;
     unfold vkLt semLt chLt chanRank chanNum ;
     dsimp only ;
     simp ;
     try omega)
example : parse_version "1.2.3rc5" = (1, 2, 3, 1, 5) := by decide
example : parse_version "1.2.3a9" = (1, 2, 3, 0, 9) := by decide
example : parse_version "not-a-version" = (0, 0, 0, 1, 0) := by decide
example : parse_version "1.2.3rc" = (1, 2, 3, 1, 0) := by decide
example : parse_version "1.2.34" = (1, 2, 34, 2, 0) := by decide
example : vkLtb (parse_version "9.9.9") (parse_version "10.0.0") = true := by decide
example : vkLtb (parse_version "1.9.9") (parse_version "2.0.0a1") = true := by decide

/-- C1: `parse_version` maps every valid version string
`MAJOR.MINOR.PATCH[SUFFIX]` (suffix absent, `a<N>`, or `rc<N>`; bare markers
are covered as build 0) to a 5-tuple whose lexicographic comparison
reproduces semantic-version plus channel ordering: numeric fields compare
numerically, alpha < rc < stable within one version, and major/minor/patch
take precedence over the channel. -/
theorem parse_version_order_correct (w1 w2 w3 u1 u2 u3 : List Char) (s t : VSuffix)
    (hw1 : goodNum w1) (hw2 : goodNum w2) (hw3 : goodNum w3)
    (hu1 : goodNum u1) (hu2 : goodNum u2) (hu3 : goodNum u3)
    (hs : s.wf) (ht : t.wf) :
    vkLtb (parse_version (verStr w1 w2 w3 s)) (parse_version (verStr u1 u2 u3 t)) = true ↔
      semLt (semOf w1 w2 w3 s) (semOf u1 u2 u3 t) := by
  rw [parse_verStr w1 w2 w3 s hw1 hw2 hw3 hs, parse_verStr u1 u2 u3 t hu1 hu2 hu3 ht,
    suffix_rank_chan s, suffix_numVal_chan s, suffix_rank_chan t, suffix_numVal_chan t]
  exact vkLtb_chan _ _ _ _ _ _ _ _

/-- Witness for C1 at `"9.9.9"` versus `"10.0.0"`: the numeric comparison of
the tuples matches the semantic ordering. -/
theorem parse_version_order_correct_witness :
    vkLtb (parse_version (verStr ['9'] ['9'] ['9'] VSuffix.stable))
        (parse_version (verStr ['1', '0'] ['0'] ['0'] VSuffix.stable)) = true ↔
      semLt (semOf ['9'] ['9'] ['9'] VSuffix.stable)
        (semOf ['1', '0'] ['0'] ['0'] VSuffix.stable) :=
  parse_version_order_correct ['9'] ['9'] ['9'] ['1', '0'] ['0'] ['0']
    VSuffix.stable VSuffix.stable
    ⟨by decide, by decide⟩ ⟨by decide, by decide⟩ ⟨by decide, by decide⟩
    ⟨by decide, by decide⟩ ⟨by decide, by decide⟩ ⟨by decide, by decide⟩
    trivial trivial

/-- C2: whenever the version regex fails to match, `parse_version` returns
exactly the sentinel tuple `(0, 0, 0, 1, 0)` (and, being a total function,
never raises); in particular `"not-a-version"` does not match. -/
theorem parse_version_sentinel_on_no_match :
    (∀ v : String, matchVersion v = none → parse_version v = (0, 0, 0, 1, 0)) ∧
      matchVersion "not-a-version" = none := by
  constructor
  · intro v h
    unfold parse_version
    rw [h]
  · decide

/-- Witness for C2: the sentinel on the concrete input `"not-a-version"`. -/
theorem parse_version_sentinel_witness :
    parse_version "not-a-version" = (0, 0, 0, 1, 0) :=
  parse_version_sentinel_on_no_match.1 "not-a-version"
    parse_version_sentinel_on_no_match.2

/-- C3 counterexample: there is no unparseable string whose sentinel tuple
outranks a correctly parsed alpha of a strictly higher version (one of
major/minor/patch positive): the first three tuple fields take precedence,
so the sentinel `(0, 0, 0, 1, 0)` only ever outranks `0.0.0` alphas. -/
theorem sentinel_no_higher_alpha_outrank :
    ¬ ∃ (bad : String) (w1 w2 w3 ds : List Char),
        matchVersion bad = none ∧
        goodNum w1 ∧ goodNum w2 ∧ goodNum w3 ∧ goodNum ds ∧
        (0 < digitsToNat 0 w1 ∨ 0 < digitsToNat 0 w2 ∨ 0 < digitsToNat 0 w3) ∧
        vkLtb (parse_version (verStr w1 w2 w3 (VSuffix.num PreType.a ds)))
          (parse_version bad) = true := by
  rintro ⟨bad, w1, w2, w3, ds, hbad, h1, h2, h3, hds, hpos, hlt⟩
  have hsent : parse_version bad = (0, 0, 0, 1, 0) := by
    unfold parse_version
    rw [hbad]
  rw [hsent, parse_verStr w1 w2 w3 (VSuffix.num PreType.a ds) h1 h2 h3 hds] at hlt
  rw [vkLtb, decide_eq_true_eq] at hlt
  unfold vkLt at hlt
  dsimp only [VSuffix.rank, VSuffix.numVal] at hlt
  omega

/-- C3 amended: the sentinel tuple of an unparseable string outranks a
correctly parsed alpha version if and only if that alpha's major, minor and
patch are all zero; it never outranks an alpha of a strictly higher
version. -/
theorem sentinel_vs_alpha_iff_zero (w1 w2 w3 ds : List Char)
    (h1 : goodNum w1) (h2 : goodNum w2) (h3 : goodNum w3) (hds : goodNum ds) :
    vkLtb (parse_version (verStr w1 w2 w3 (VSuffix.num PreType.a ds)))
        (parse_version "not-a-version") = true ↔
      digitsToNat 0 w1 = 0 ∧ digitsToNat 0 w2 = 0 ∧ digitsToNat 0 w3 = 0 := by
  have hsent : parse_version "not-a-version" = (0, 0, 0, 1, 0) := by decide
  rw [hsent, parse_verStr w1 w2 w3 (VSuffix.num PreType.a ds) h1 h2 h3 hds]
  rw [vkLtb, decide_eq_true_eq]
  unfold vkLt
  dsimp only [VSuffix.rank, VSuffix.numVal]
  omega

/-- Witness for the amended C3 at `"0.0.0a9"`: the sentinel outranks the
zero-version alpha. -/
theorem sentinel_vs_alpha_iff_zero_witness :
    vkLtb (parse_version (verStr ['0'] ['0'] ['0'] (VSuffix.num PreType.a ['9'])))
        (parse_version "not-a-version") = true ↔
      digitsToNat 0 ['0'] = 0 ∧ digitsToNat 0 ['0'] = 0 ∧ digitsToNat 0 ['0'] = 0 :=
  sentinel_vs_alpha_iff_zero ['0'] ['0'] ['0'] ['9']
    ⟨by decide, by decide⟩ ⟨by decide, by decide⟩ ⟨by decide, by decide⟩
    ⟨by decide, by decide⟩

/-- C9: a version string with a bare channel marker and no trailing number
(for example `"1.2.3rc"`) matches the regex (no sentinel fallback), parses
with prerelease number 0, and ranks strictly below every build `N ≥ 1` of
the same version and channel. -/
theorem parse_version_bare_marker (w1 w2 w3 ds : List Char) (pt : PreType)
    (h1 : goodNum w1) (h2 : goodNum w2) (h3 : goodNum w3) (hds : goodNum ds)
    (hn : 1 ≤ digitsToNat 0 ds) :
    matchVersion (verStr w1 w2 w3 (VSuffix.bare pt)) =
        some (digitsToNat 0 w1, digitsToNat 0 w2, digitsToNat 0 w3, some pt, none) ∧
      parse_version (verStr w1 w2 w3 (VSuffix.bare pt)) =
        (digitsToNat 0 w1, digitsToNat 0 w2, digitsToNat 0 w3, (VSuffix.bare pt).rank, 0) ∧
      vkLtb (parse_version (verStr w1 w2 w3 (VSuffix.bare pt)))
        (parse_version (verStr w1 w2 w3 (VSuffix.num pt ds))) = true := by
  refine ⟨?_, ?_, ?_⟩
  · exact matchVersion_verStr w1 w2 w3 (VSuffix.bare pt) h1 h2 h3 trivial
  · exact parse_verStr w1 w2 w3 (VSuffix.bare pt) h1 h2 h3 trivial
  · rw [parse_verStr w1 w2 w3 (VSuffix.bare pt) h1 h2 h3 trivial,
      parse_verStr w1 w2 w3 (VSuffix.num pt ds) h1 h2 h3 hds]
    rw [vkLtb, decide_eq_true_eq]
    unfold vkLt
    cases pt <;> dsimp only [VSuffix.rank, VSuffix.numVal] <;> omega

/-- Witness for C9 at `"1.2.3rc"` versus `"1.2.3rc5"`. -/
theorem parse_version_bare_marker_witness :
    parse_version (verStr ['1'] ['2'] ['3'] (VSuffix.bare PreType.rc)) = (1, 2, 3, 1, 0) ∧
      vkLtb (parse_version (verStr ['1'] ['2'] ['3'] (VSuffix.bare PreType.rc)))
        (parse_version (verStr ['1'] ['2'] ['3'] (VSuffix.num PreType.rc ['5']))) = true := by
  have h := parse_version_bare_marker ['1'] ['2'] ['3'] ['5'] PreType.rc
    ⟨by decide, by decide⟩ ⟨by decide, by decide⟩ ⟨by decide, by decide⟩
    ⟨by decide, by decide⟩ (by decide)
  exact ⟨h.2.1, h.2.2⟩

/-- C4 counterexample: two candidates with identical `VersionKey` but
different key strings need not come out in reversed input order.  With input
order `"b"` before `"a"`, the sorted output keeps `"b"` before `"a"`
(descending string comparison), not the reversed input order. -/
theorem sort_tie_not_reversed :
    sortRev [((1, 0, 0, 2, 0), "b"), ((1, 0, 0, 2, 0), "a")] =
        [((1, 0, 0, 2, 0), "b"), ((1, 0, 0, 2, 0), "a")] ∧
      ("b" : String) ≠ "a" := by
  constructor
  · decide
  · decide

/-- C4 amended: the sorter orders the candidates descending with respect to
Python's comparison of the whole `(VersionKey, key)` pair: the output is a
permutation of the input in which no later element is greater, so ties in
`VersionKey` are ordered by key string descending, not by reversed input
order. -/
theorem sortRev_desc_perm (l : List Candidate) :
    (sortRev l).Pairwise (fun a b => candLtb a b = false) ∧ (sortRev l).Perm l :=
  ⟨sortRev_pairwise l, sortRev_perm l⟩

set_option maxRecDepth 16384 in
/-- C5: on a listing with the three matching keys and one unrelated key, the
extractor (with the `linux`/`gfx1151` defaults) retains exactly the three
matching keys with their parsed tuples, and the sorter orders them
`7.1.0a1 > 7.0.1rc2 > 7.0.0`. -/
theorem extract_sort_example :
    extractCandidates "linux" "gfx1151"
        "<ListBucketResult><Key>therock-dist-linux-gfx1151-7.0.0.tar.gz</Key><Key>therock-dist-linux-gfx1151-7.0.1rc2.tar.gz</Key><Key>therock-dist-linux-gfx1151-7.1.0a1.tar.gz</Key><Key>unrelated-file.txt</Key></ListBucketResult>" =
        [((7, 0, 0, 2, 0), "therock-dist-linux-gfx1151-7.0.0.tar.gz"),
         ((7, 0, 1, 1, 2), "therock-dist-linux-gfx1151-7.0.1rc2.tar.gz"),
         ((7, 1, 0, 0, 1), "therock-dist-linux-gfx1151-7.1.0a1.tar.gz")] ∧
      sortRev
          [((7, 0, 0, 2, 0), "therock-dist-linux-gfx1151-7.0.0.tar.gz"),
           ((7, 0, 1, 1, 2), "therock-dist-linux-gfx1151-7.0.1rc2.tar.gz"),
           ((7, 1, 0, 0, 1), "therock-dist-linux-gfx1151-7.1.0a1.tar.gz")] =
        [((7, 1, 0, 0, 1), "therock-dist-linux-gfx1151-7.1.0a1.tar.gz"),
         ((7, 0, 1, 1, 2), "therock-dist-linux-gfx1151-7.0.1rc2.tar.gz"),
         ((7, 0, 0, 2, 0), "therock-dist-linux-gfx1151-7.0.0.tar.gz")] := by
  constructor
  · decide
  · decide

/-- C6: the target resolver maps exactly `gfx110X` to `gfx110X-dgpu` and
`gfx120X` to `gfx120X-all`, passes every other target through unchanged, and
the bucket key prefix is `therock-dist-{platform}-{resolved_target}-7`. -/
theorem resolve_target_rules :
    resolveTarget "gfx110X" = "gfx110X-dgpu" ∧
      resolveTarget "gfx120X" = "gfx120X-all" ∧
      (∀ t : String, t ≠ "gfx110X" → t ≠ "gfx120X" → resolveTarget t = t) ∧
      (∀ p t : String,
        mkPrefix p t = "therock-dist-" ++ p ++ "-" ++ resolveTarget t ++ "-7") := by
  refine ⟨by decide, by decide, ?_, fun p t => rfl⟩
  intro t ha hb
  simp [resolveTarget, ha, hb]

/-- Witness for C6 at the default target `gfx1151`, which is not an alias. -/
theorem resolve_target_rules_witness : resolveTarget "gfx1151" = "gfx1151" :=
  resolve_target_rules.2.2.1 "gfx1151" (by decide) (by decide)

/-- C7: for a non-negative count the reporter truncates the sorted candidate
list to its first `count` entries and prints one URL (`S3_BASE ++ key`) per
retained entry; an empty candidate list yields zero URL lines, and with
count 2 on 5 candidates exactly 2 lines are printed. -/
theorem report_truncates (cands : List Candidate) (count : Int) (h : 0 ≤ count) :
    urlLines cands count =
        ((sortRev cands).take count.toNat).map (fun c => S3_BASE ++ c.2) ∧
      (cands = [] → urlLines cands count = []) ∧
      (cands.length = 5 → count = 2 → (urlLines cands count).length = 2) := by
  have hnotlt : ¬ count < 0 := not_lt.mpr h
  have hmain : urlLines cands count =
      ((sortRev cands).take count.toNat).map (fun c => S3_BASE ++ c.2) := by
    unfold urlLines takeNewest pySlice
    by_cases he : sortRev cands = []
    · simp [he]
    · rw [if_neg he, if_neg hnotlt]
  refine ⟨hmain, ?_, ?_⟩
  · intro hnil
    subst hnil
    rw [hmain]
    simp [sortRev]
  · intro h5 h2
    subst h2
    rw [hmain]
    have hl : (sortRev cands).length = 5 := (sortRev_perm cands).length_eq.trans h5
    rw [List.length_map, List.length_take, hl]
    decide

/-- Witness for C7: count 2 on a concrete list of 5 candidates. -/
theorem report_truncates_witness :
    urlLines
        [((7, 0, 0, 2, 0), "k0"), ((7, 0, 1, 2, 0), "k1"), ((7, 0, 2, 2, 0), "k2"),
         ((7, 0, 3, 2, 0), "k3"), ((7, 0, 4, 2, 0), "k4")] 2 =
      ((sortRev
          [((7, 0, 0, 2, 0), "k0"), ((7, 0, 1, 2, 0), "k1"), ((7, 0, 2, 2, 0), "k2"),
           ((7, 0, 3, 2, 0), "k3"), ((7, 0, 4, 2, 0), "k4")]).take (Int.toNat 2)).map
        (fun c => S3_BASE ++ c.2) :=
  (report_truncates
    [((7, 0, 0, 2, 0), "k0"), ((7, 0, 1, 2, 0), "k1"), ((7, 0, 2, 2, 0), "k2"),
     ((7, 0, 3, 2, 0), "k3"), ((7, 0, 4, 2, 0), "k4")] 2 (by decide)).1

/-- C8 counterexample: the program does not accept every platform string:
argparse restricts `--platform` with `choices=["linux", "windows"]`, so the
platform `"macos"` is rejected. -/
theorem platform_choice_rejects : acceptsArgs "macos" "gfx1151" = false := by
  decide

/-- C8 amended: every target string is accepted, but a platform/target pair
is accepted if and only if the platform is `linux` or `windows`; accepted
pairs always produce a prefix query string. -/
theorem accepts_args_iff (platform target : String) :
    acceptsArgs platform target = true ↔ (platform = "linux" ∨ platform = "windows") := by
  unfold acceptsArgs validPlatform
  simp

/-- C10: for a negative count and a non-empty candidate list the reporter
prints all but the last `|count|` sorted candidates (Python's
`candidates[:count]` with a negative stop drops entries from the end), not
`|count|` entries or zero entries, and it does not reject the value. -/
theorem negative_count_drops_tail (cands : List Candidate) (count : Int)
    (hneg : count < 0) (hne : cands ≠ []) :
    urlLines cands count =
      ((sortRev cands).take ((sortRev cands).length - (-count).toNat)).map
        (fun c => S3_BASE ++ c.2) := by
  have hse : sortRev cands ≠ [] := by
    intro h0
    apply hne
    have hp := sortRev_perm cands
    rw [h0] at hp
    exact hp.symm.eq_nil
  unfold urlLines takeNewest pySlice
  rw [if_neg hse, if_pos hneg]
  have harith : ((sortRev cands).length + count).toNat =
      (sortRev cands).length - (-count).toNat := by
    omega
  rw [harith]

/-- Witness for C10: count `-1` on a concrete two-candidate list drops the
last sorted entry. -/
theorem negative_count_drops_tail_witness :
    urlLines [((1, 0, 0, 2, 0), "x"), ((1, 0, 1, 2, 0), "y")] (-1) =
      ((sortRev [((1, 0, 0, 2, 0), "x"), ((1, 0, 1, 2, 0), "y")]).take
          ((sortRev [((1, 0, 0, 2, 0), "x"), ((1, 0, 1, 2, 0), "y")]).length -
            (Int.toNat (-(-1))))).map (fun c => S3_BASE ++ c.2) :=
  negative_count_drops_tail [((1, 0, 0, 2, 0), "x"), ((1, 0, 1, 2, 0), "y")] (-1)
    (by decide) (by decide)
